import Mathlib

/-!
Verification of the RxCpp operator core: a shallow embedding of the
`rxcpp::util::detail::maybe<T>` optional-value utility (rx-util.hpp), the
`distinct_until_changed` stateful operator (rx-distinct_until_changed.hpp),
and the `Binder` fluent pipeline builder (cpprx rx.hpp), with theorems about
their behavior.
-/

/-- Shallow embedding of `rxcpp::util::detail::maybe<T>` (rx-util.hpp).
The C++ class holds a `bool is_set` together with raw aligned storage that
contains a constructed `T` exactly when `is_set` is true; the pair is
represented here by a single `Option T` (`some v` when `is_set` is true and
the storage holds `v`, `none` when `is_set` is false), which is exactly the
set of states reachable through the class interface. -/
structure maybe (T : Type) : Type where
  contents : Option T
deriving DecidableEq

/-- The default constructor `maybe() : is_set(false)`. -/
def maybe.mkEmpty {T : Type} : maybe T := ⟨none⟩

/-- The value constructor `maybe(T value)`: constructs `value` in storage and
sets `is_set` to true. -/
def maybe.mkValue {T : Type} (v : T) : maybe T := ⟨some v⟩

/-- `maybe::empty()`: `return !is_set;`. -/
def maybe.empty {T : Type} (m : maybe T) : Bool := m.contents.isNone

/-- `maybe::size()`: `return is_set ? 1 : 0;`. -/
def maybe.size {T : Type} (m : maybe T) : Nat := if m.contents.isSome then 1 else 0

/-- `maybe::operator*`: `if (!is_set) abort(); return *reinterpret_cast<T*>(&storage);`.
A result of `none` models the `abort()` call (no value is ever produced there). -/
def maybe.deref {T : Type} (m : maybe T) : Option T :=
  if m.empty then none else m.contents

/-- `maybe::operator->`: same body as `operator*`, returning the address of the
stored object; `none` models the `abort()` call. -/
def maybe.arrow {T : Type} (m : maybe T) : Option T :=
  if m.empty then none else m.contents

/-- `maybe::value()`: `if (!is_set) abort(); return *reinterpret_cast<T*>(&storage);`.
A result of `none` models the `abort()` call. -/
def maybe.value {T : Type} (m : maybe T) : Option T :=
  if m.empty then none else m.contents

/-- Modelled from the spec: `maybe::get()` is called by
`distinct_until_changed_observer::on_next` but its definition is not part of
the excerpt; per the spec note that the `maybe<T>` utility uses `abort()` on
invalid access, it is modelled with the same shape as `operator*` / `value`:
abort (`none`) when empty, the stored value otherwise. -/
def maybe.get {T : Type} (m : maybe T) : Option T :=
  if m.empty then none else m.contents

/-- `maybe::reset()`: when `is_set`, clears `is_set` and destroys the stored
object; on an already-empty `maybe` the body is skipped (no-op). -/
def maybe.reset {T : Type} (m : maybe T) : maybe T :=
  match m.contents with
  | some _ => ⟨none⟩
  | none => m

/-- `maybe::reset(U&& value)`: calls `reset()` (leaving the slot empty), then
constructs `value` in storage and sets `is_set`; the net result holds `value`. -/
def maybe.resetValue {T : Type} (m : maybe T) (v : T) : maybe T :=
  match m.reset with
  | _ => ⟨some v⟩

/-- A downstream delivery on the observer contract: `on_next` with a value,
`on_error` with an error, or `on_completed`. -/
inductive Notification (T E : Type) : Type
  | next (v : T)
  | error (e : E)
  | completed
deriving DecidableEq

/-- The fields of `distinct_until_changed_observer<Subscriber>`: the downstream
`dest` and the `mutable rxu::detail::maybe<source_value_type> remembered` slot. -/
structure distinct_until_changed_observer (T D : Type) : Type where
  dest : D
  remembered : maybe T

/-- `distinct_until_changed_observer(dest_type d) : dest(d) {}` as used by
`make(d)` / `distinct_until_changed::operator()`: `remembered` is
default-constructed, hence empty. -/
def distinct_until_changed_observer.make {T D : Type} (d : D) :
    distinct_until_changed_observer T D :=
  ⟨d, maybe.mkEmpty⟩

/-- `distinct_until_changed_observer::on_next(v)`:
`if (remembered.empty() || v != remembered.get()) { remembered.reset(v); dest.on_next(v); }`.
State-passing embedding: given the `remembered` slot, returns the new slot and
the list of values forwarded to `dest`. `neq` is the item type's `operator!=`.
The `||` short-circuits, so `remembered.get()` runs only when the slot is not
empty; a result of `none` models the unreachable `abort()` inside `get`. -/
def distinct_on_next {T : Type} (neq : T → T → Bool) (m : maybe T) (v : T) :
    Option (maybe T × List T) :=
  if m.empty then some (m.resetValue v, [v])
  else
    match m.get with
    | none => none
    | some r =>
      if neq v r then some (m.resetValue v, [v]) else some (m, [])

/-- `distinct_until_changed_observer::on_error(e)`: `dest.on_error(e);` —
forwards the error downstream; the `remembered` slot is not touched. -/
def distinct_on_error {T E : Type} (m : maybe T) (e : E) :
    maybe T × List (Notification T E) :=
  (m, [Notification.error e])

/-- `distinct_until_changed_observer::on_completed()`: `dest.on_completed();` —
forwards completion downstream; the `remembered` slot is not touched. -/
def distinct_on_completed {T E : Type} (m : maybe T) :
    maybe T × List (Notification T E) :=
  (m, [Notification.completed])

/-- Abort-free form of one `on_next` step; `distinct_on_next_eq_step` proves it
agrees with `distinct_on_next` (the abort branch is unreachable). -/
def distinct_step {T : Type} (neq : T → T → Bool) (m : maybe T) (v : T) :
    maybe T × List T :=
  match m.contents with
  | none => (m.resetValue v, [v])
  | some r => if neq v r then (m.resetValue v, [v]) else (m, [])

/-- Run a list of incoming values through `on_next`, threading the `remembered`
slot and concatenating the forwarded values. -/
def distinct_run {T : Type} (neq : T → T → Bool) :
    maybe T → List T → Option (maybe T × List T)
  | m, [] => some (m, [])
  | m, v :: vs =>
    match distinct_on_next neq m v with
    | none => none
    | some s1 =>
      match distinct_run neq s1.1 vs with
      | none => none
      | some s2 => some (s2.1, s1.2 ++ s2.2)

/-- Abort-free form of `distinct_run`, built from `distinct_step`. -/
def distinct_run_pure {T : Type} (neq : T → T → Bool) :
    maybe T → List T → maybe T × List T
  | m, [] => (m, [])
  | m, v :: vs =>
    ((distinct_run_pure neq (distinct_step neq m v).1 vs).1,
      (distinct_step neq m v).2 ++ (distinct_run_pure neq (distinct_step neq m v).1 vs).2)

/-- The value sequence a fresh activation of `distinct_until_changed` forwards
downstream for the input value sequence `xs` (`remembered` starts
default-constructed, i.e. empty). -/
def distinct_output {T : Type} (neq : T → T → Bool) (xs : List T) :
    Option (List T) :=
  (distinct_run neq maybe.mkEmpty xs).map Prod.snd

/-- Feed a full notification sequence (values, errors, completion) through the
`distinct_until_changed` observer, dispatching to `on_next` / `on_error` /
`on_completed` and collecting the downstream deliveries. -/
def distinct_process {T E : Type} (neq : T → T → Bool) :
    maybe T → List (Notification T E) → Option (maybe T × List (Notification T E))
  | m, [] => some (m, [])
  | m, Notification.next v :: ns =>
    match distinct_on_next neq m v with
    | none => none
    | some s1 =>
      match distinct_process neq s1.1 ns with
      | none => none
      | some s2 => some (s2.1, s1.2.map Notification.next ++ s2.2)
  | m, Notification.error e :: ns =>
    match distinct_process neq (distinct_on_error m e).1 ns with
    | none => none
    | some s2 => some (s2.1, (distinct_on_error m e).2 ++ s2.2)
  | m, Notification.completed :: ns =>
    match distinct_process neq (distinct_on_completed (T := T) (E := E) m).1 ns with
    | none => none
    | some s2 => some (s2.1, (distinct_on_completed (T := T) (E := E) m).2 ++ s2.2)

/-- `on_next` when the item type's `operator!=` may throw: `Except.error`
models a C++ exception. The source body of `on_next` contains no try/catch, so
a throwing comparison unwinds out of `on_next` before `dest` receives any
notification; downstream deliveries are modelled as `Notification`s so that a
converted `on_error` delivery would be representable. -/
def distinct_on_next_exc {T E : Type} (neq : T → T → Except E Bool)
    (m : maybe T) (v : T) : Except E (maybe T × List (Notification T E)) :=
  match m.contents with
  | none => Except.ok (m.resetValue v, [Notification.next v])
  | some r =>
    match neq v r with
    | Except.error e => Except.error e
    | Except.ok b =>
      if b then Except.ok (m.resetValue v, [Notification.next v])
      else Except.ok (m, [])

/-- The output of one activation: `make d` builds the observer (fresh
`remembered` slot), then the inputs run through `on_next`. -/
def activation_output {T D : Type} (neq : T → T → Bool) (d : D) (xs : List T) :
    Option (List T) :=
  (distinct_run neq (distinct_until_changed_observer.make (T := T) d).remembered xs).map
    Prod.snd

/-- Two activations of the same operator chain: the operator factory
(`distinct_until_changed::operator()` via `make`) is invoked once per
subscription, so each activation gets its own observer with its own
`remembered` slot; each is fed its own input sequence. -/
def two_activation_outputs {T D : Type} (neq : T → T → Bool) (d : D)
    (xs ys : List T) : Option (List T) × Option (List T) :=
  ((distinct_run neq (distinct_until_changed_observer.make (T := T) d).remembered xs).map
      Prod.snd,
    (distinct_run neq (distinct_until_changed_observer.make (T := T) d).remembered ys).map
      Prod.snd)

/-- The item type's `operator!=` for a type with decidable equality. -/
def distinct_neq (T : Type) [DecidableEq T] : T → T → Bool :=
  fun a b => decide (a ≠ b)

/-- An `operator!=` that always throws, with exception payload `7`. -/
def throwing_neq : Nat → Nat → Except Nat Bool := fun _ _ => Except.error 7

/-- Modelled from the spec: the operator node classes `Where<T>(obj, predicate)`
and `Select<T>(obj, selector)` constructed by `Binder::where` / `Binder::select`
live in cpprx headers outside the excerpt; per the spec, constructing them only
wraps the source together with the callback and performs no deliveries. `src`
stands for any wrapped source observable handle (a cold source of items). -/
inductive ObsDesc : Type → Type 1
  | src : {α : Type} → List α → ObsDesc α
  | Where : {α : Type} → ObsDesc α → (α → Bool) → ObsDesc α
  | Select : {α β : Type} → ObsDesc α → (α → β) → ObsDesc β

/-- `Binder<Obj>`: the fluent pipeline builder; `BinderBase` stores the wrapped
observable in its `obj` member. -/
structure Binder (α : Type) : Type 1 where
  obj : ObsDesc α

/-- `from(obj)` on an observable handle:
`return Binder<std::shared_ptr<Observable<T>>>(std::move(obj));`. -/
def from' {α : Type} (obj : ObsDesc α) : Binder α := Binder.mk obj

/-- `from(Binder<Obj> binder) { return std::move(binder); }`: the overload of
`from` on an existing `Binder` returns it unchanged. -/
def fromBinder {α : Type} (b : Binder α) : Binder α := b

/-- `Binder::select(selector) { return from(Select<item_type>(obj, selector)); }`. -/
def Binder.select {α β : Type} (b : Binder α) (selector : α → β) : Binder β :=
  from' (ObsDesc.Select b.obj selector)

/-- `Binder::where(predicate) { return from(Where<item_type>(obj, predicate)); }`. -/
def Binder.whereOp {α : Type} (b : Binder α) (predicate : α → Bool) : Binder α :=
  from' (ObsDesc.Where b.obj predicate)

/-- `Binder::publish() { return obj; }`: unwraps the builder back to the
observable handle. -/
def Binder.publish {α : Type} (b : Binder α) : ObsDesc α := b.obj

/-- A user-callback invocation counter threaded through pipeline construction:
a computation returns its result together with the updated count of
predicate/selector invocations performed so far. -/
def Cnt (σ : Type 1) : Type 1 := Nat → σ × Nat

/-- Building `from(source).where(p).select(f)` in the counting model: the
bodies of `Binder::where` and `Binder::select` construct wrapper nodes and
apply no user callback, so the chain is produced with the counter untouched. -/
def buildChain {α β : Type} (source : ObsDesc α) (p : α → Bool) (f : α → β) :
    Cnt (Binder β) :=
  fun n => (((from' source).whereOp p).select f, n)

/-- The abort path inside `on_next` is never taken: `distinct_on_next` agrees
with the abort-free `distinct_step` on every input. -/
theorem distinct_on_next_eq_step {T : Type} (neq : T → T → Bool) (m : maybe T)
    (v : T) : distinct_on_next neq m v = some (distinct_step neq m v) := by
  obtain ⟨c⟩ := m
  cases c with
  | none => rfl
  | some r =>
    by_cases h : neq v r = true
    · simp [distinct_on_next, distinct_step, maybe.empty, maybe.get, h]
    · simp [distinct_on_next, distinct_step, maybe.empty, maybe.get, h]

/-- Running a value sequence never aborts: `distinct_run` agrees with the
abort-free `distinct_run_pure`. -/
theorem distinct_run_eq_pure {T : Type} (neq : T → T → Bool) :
    ∀ (xs : List T) (m : maybe T),
      distinct_run neq m xs = some (distinct_run_pure neq m xs) := by
  intro xs
  induction xs with
  | nil => intro m; rfl
  | cons v vs ih =>
    intro m
    simp [distinct_run, distinct_run_pure, distinct_on_next_eq_step, ih]

/-- The forwarded values form an order-preserving subsequence of the input,
whatever the starting `remembered` slot. -/
theorem distinct_run_pure_sublist {T : Type} (neq : T → T → Bool) :
    ∀ (xs : List T) (m : maybe T),
      ((distinct_run_pure neq m xs).2).Sublist xs := by
  intro xs
  induction xs with
  | nil => intro m; simp [distinct_run_pure]
  | cons v vs ih =>
    intro m
    obtain ⟨c⟩ := m
    cases c with
    | none =>
      simpa [distinct_run_pure, distinct_step, maybe.resetValue, maybe.reset]
        using (ih (maybe.mk (some v))).cons₂ v
    | some r =>
      by_cases h : neq v r = true
      · simpa [distinct_run_pure, distinct_step, maybe.resetValue, maybe.reset, h]
          using (ih (maybe.mk (some v))).cons₂ v
      · simpa [distinct_run_pure, distinct_step, h]
          using (ih (maybe.mk (some r))).cons v

/-- With the item type's decidable `operator!=`, consecutive forwarded values
are distinct, and the first forwarded value differs from the starting
remembered value (when there is one). -/
theorem distinct_run_pure_chain {T : Type} [DecidableEq T] :
    ∀ (xs : List T) (m : maybe T),
      ((distinct_run_pure (distinct_neq T) m xs).2).Chain' (fun a b => a ≠ b) ∧
      (∀ r h, m.contents = some r →
        ((distinct_run_pure (distinct_neq T) m xs).2).head? = some h → h ≠ r) := by
  intro xs
  induction xs with
  | nil =>
    intro m
    refine ⟨by simp [distinct_run_pure], ?_⟩
    intro r h _ hh
    simp [distinct_run_pure] at hh
  | cons v vs ih =>
    intro m
    obtain ⟨c⟩ := m
    have key : ∀ (w : T), (v :: (distinct_run_pure (distinct_neq T)
        (maybe.mk (some v)) vs).2).Chain' (fun a b => a ≠ b) := by
      intro w
      refine List.chain'_cons'.mpr ⟨?_, (ih (maybe.mk (some v))).1⟩
      intro y hy
      exact fun hvy => (ih (maybe.mk (some v))).2 v y rfl hy hvy.symm
    cases c with
    | none =>
      have hrw : (distinct_run_pure (distinct_neq T) (maybe.mk none) (v :: vs)).2
          = v :: (distinct_run_pure (distinct_neq T) (maybe.mk (some v)) vs).2 := by
        simp [distinct_run_pure, distinct_step, maybe.resetValue, maybe.reset]
      refine ⟨?_, ?_⟩
      · rw [hrw]; exact key v
      · intro r h hc
        simp at hc
    | some r =>
      by_cases hvr : v = r
      · have hrw : (distinct_run_pure (distinct_neq T) (maybe.mk (some r)) (v :: vs)).2
            = (distinct_run_pure (distinct_neq T) (maybe.mk (some r)) vs).2 := by
          simp [distinct_run_pure, distinct_step, distinct_neq, hvr]
        refine ⟨?_, ?_⟩
        · rw [hrw]; exact (ih (maybe.mk (some r))).1
        · intro r0 h hc hh
          rw [hrw] at hh
          have hr0 : r = r0 := by simpa using hc
          subst hr0
          exact (ih (maybe.mk (some r))).2 r h rfl hh
      · have hrw : (distinct_run_pure (distinct_neq T) (maybe.mk (some r)) (v :: vs)).2
            = v :: (distinct_run_pure (distinct_neq T) (maybe.mk (some v)) vs).2 := by
          simp [distinct_run_pure, distinct_step, distinct_neq, hvr,
            maybe.resetValue, maybe.reset]
        refine ⟨?_, ?_⟩
        · rw [hrw]; exact key v
        · intro r0 h hc hh
          rw [hrw] at hh
          have hr0 : r = r0 := by simpa using hc
          have hhv : v = h := by simpa using hh
          subst hr0; subst hhv
          exact hvr

/-- From a fresh (empty) slot, the first incoming value is always forwarded
first. -/
theorem distinct_run_pure_head {T : Type} (neq : T → T → Bool) (v : T)
    (vs : List T) :
    ((distinct_run_pure neq maybe.mkEmpty (v :: vs)).2).head? = some v := by
  simp [distinct_run_pure, distinct_step, maybe.mkEmpty]

/-- Claim C1: on `on_next(v)`, if no value is remembered or `v` differs from
the remembered value under the item type's equality, the operator sets the
remembered slot to `v` and forwards `on_next(v)`; otherwise it forwards
nothing and leaves the slot unchanged. For the input sequence
`[1,1,2,2,2,3,1]` the forwarded output sequence is `[1,2,3,1]`. -/
theorem distinct_on_next_dedup_spec :
    (∀ (T : Type) (neq : T → T → Bool) (m : maybe T) (v : T),
      (m.empty = true →
        distinct_on_next neq m v = some (m.resetValue v, [v]) ∧
          (m.resetValue v).contents = some v) ∧
      (∀ r, m.contents = some r → neq v r = true →
        distinct_on_next neq m v = some (m.resetValue v, [v]) ∧
          (m.resetValue v).contents = some v) ∧
      (∀ r, m.contents = some r → neq v r = false →
        distinct_on_next neq m v = some (m, []))) ∧
    distinct_output (distinct_neq Nat) [1, 1, 2, 2, 2, 3, 1] = some [1, 2, 3, 1] := by
  constructor
  · intro T neq m v
    obtain ⟨c⟩ := m
    refine ⟨?_, ?_, ?_⟩
    · intro he
      cases c with
      | none => exact ⟨rfl, rfl⟩
      | some r => simp [maybe.empty] at he
    · intro r hr ht
      cases c with
      | none => simp at hr
      | some r0 =>
        have : r0 = r := by simpa using hr
        subst this
        refine ⟨?_, rfl⟩
        simp [distinct_on_next, maybe.empty, maybe.get, ht]
    · intro r hr hf
      cases c with
      | none => simp at hr
      | some r0 =>
        have : r0 = r := by simpa using hr
        subst this
        simp [distinct_on_next, maybe.empty, maybe.get, hf]
  · rfl

/-- Witness for C1: concrete runs through all three branches — empty slot
forwards, changed value forwards, repeated value is suppressed. -/
theorem distinct_on_next_dedup_spec_witness :
    (distinct_on_next (distinct_neq Nat) maybe.mkEmpty 1
        = some (maybe.mkEmpty.resetValue 1, [1]) ∧
      ((maybe.mkEmpty (T := Nat)).resetValue 1).contents = some 1) ∧
    distinct_on_next (distinct_neq Nat) (maybe.mkValue 1) 2
      = some ((maybe.mkValue 1).resetValue 2, [2]) ∧
    distinct_on_next (distinct_neq Nat) (maybe.mkValue 1) 1
      = some (maybe.mkValue 1, []) ∧
    distinct_output (distinct_neq Nat) [1, 1, 2, 2, 2, 3, 1] = some [1, 2, 3, 1] :=
  ⟨(distinct_on_next_dedup_spec.1 Nat (distinct_neq Nat) maybe.mkEmpty 1).1 rfl,
    ((distinct_on_next_dedup_spec.1 Nat (distinct_neq Nat) (maybe.mkValue 1) 2).2.1
        1 rfl (by decide)).1,
    (distinct_on_next_dedup_spec.1 Nat (distinct_neq Nat) (maybe.mkValue 1) 1).2.2
      1 rfl (by decide),
    distinct_on_next_dedup_spec.2⟩

/-- Claim C2 counterexample: with remembered value `1` and incoming value `2`,
an `operator!=` that throws (payload `7`) makes `on_next` propagate the
exception out (`Except.error 7`): it is not caught at the point of invocation
and no `on_error` is delivered downstream (the result is not an `Except.ok`
carrying an error notification). -/
theorem distinct_comparison_exception_counterexample :
    distinct_on_next_exc throwing_neq (maybe.mkValue 1) 2 = Except.error 7 := rfl

/-- Claim C2 (amended): if the equality comparison raises during `on_next`,
the exception propagates out of the operator's `on_next` uncaught — the
operator forwards nothing downstream (neither `on_next` nor `on_error`);
conversion to `on_error`, if any, is left to outer layers. -/
theorem distinct_comparison_exception_amended {T E : Type}
    (neq : T → T → Except E Bool) (m : maybe T) (v r : T) (e : E)
    (hr : m.contents = some r) (he : neq v r = Except.error e) :
    distinct_on_next_exc neq m v = Except.error e := by
  obtain ⟨c⟩ := m
  have : c = some r := hr
  subst this
  simp [distinct_on_next_exc, he]

/-- Witness for the amended C2: a concrete throwing comparison with remembered
value `5` and incoming value `9` propagates its exception. -/
theorem distinct_comparison_exception_amended_witness :
    distinct_on_next_exc throwing_neq (maybe.mkValue 5) 9 = Except.error 7 :=
  distinct_comparison_exception_amended throwing_neq (maybe.mkValue 5) 9 5 7 rfl rfl

/-- Claim C3 counterexample: after `on_error` (respectively `on_completed`)
with remembered value `5`, the remembered slot is still non-empty — the
terminal handlers do not discard the remembered state, contradicting the
claim that the slot is empty after a terminal call. -/
theorem distinct_terminal_clears_counterexample :
    (distinct_on_error (maybe.mkValue (5 : Nat)) (7 : Nat)).1.empty = false ∧
    (distinct_on_completed (T := Nat) (E := Nat) (maybe.mkValue 5)).1.empty = false :=
  ⟨rfl, rfl⟩

/-- Claim C3 (amended): `on_error(e)` forwards `on_error(e)` downstream
unchanged and `on_completed()` forwards `on_completed()` downstream unchanged,
but neither clears the remembered slot — it is left exactly as it was (the
remembered state is only discarded when the observer itself is destroyed at
activation teardown). -/
theorem distinct_terminal_forward_amended {T E : Type} (m : maybe T) (e : E) :
    distinct_on_error m e = (m, [Notification.error e]) ∧
    distinct_on_completed (T := T) (E := E) m = (m, [Notification.completed]) :=
  ⟨rfl, rfl⟩

/-- Claim C4: remembered state is never shared across activations — the
operator factory builds, for each downstream subscriber, a fresh observer
whose remembered slot starts empty, so two activations fed independent input
sequences each produce exactly the output of processing their own input
alone. -/
theorem distinct_activation_independence_spec {T D : Type}
    (neq : T → T → Bool) (d : D) (xs ys : List T) :
    (distinct_until_changed_observer.make (T := T) d).remembered.empty = true ∧
    two_activation_outputs neq d xs ys
      = (activation_output neq d xs, activation_output neq d ys) ∧
    activation_output neq d xs = distinct_output neq xs :=
  ⟨rfl, rfl, rfl⟩

/-- Claim C5: building `from(source).where(p).select(f)` without a terminal
operation performs zero invocations of `p` or `f` (the invocation counter is
untouched), and only wraps the source: the result is the `Select` node over
the `Where` node over the source. -/
theorem binder_chain_laziness_spec {α β : Type} (source : ObsDesc α)
    (p : α → Bool) (f : α → β) (n : Nat) :
    (buildChain source p f n).2 = n ∧
    (buildChain source p f n).1.obj = ObsDesc.Select (ObsDesc.Where source p) f :=
  ⟨rfl, rfl⟩

/-- Claim C6: the empty input followed by completion yields no values, one
completion, and no errors; the single-element input `[5]` yields `[5]`. -/
theorem distinct_empty_and_single_spec :
    distinct_process (E := Nat) (distinct_neq Nat) maybe.mkEmpty
        [Notification.completed]
      = some (maybe.mkEmpty, [Notification.completed]) ∧
    distinct_output (distinct_neq Nat) [5] = some [5] :=
  ⟨rfl, rfl⟩

/-- Claim C7: on an empty `maybe`, every value accessor (`operator*`,
`operator->`, `value()`) aborts instead of returning a value; on a non-empty
`maybe`, every accessor (and `get`) returns the stored value and the abort
path is not taken; and `on_next`'s remembered-value access is guarded by the
emptiness check, so `on_next` can never reach an abort. -/
theorem maybe_abort_guarded_spec :
    (∀ (T : Type) (m : maybe T),
      (m.empty = true → m.deref = none ∧ m.arrow = none ∧ m.value = none) ∧
      (m.empty = false →
        m.deref = m.contents ∧ m.arrow = m.contents ∧ m.value = m.contents ∧
          m.get = m.contents ∧ m.contents.isSome = true)) ∧
    (∀ (T : Type) (neq : T → T → Bool) (m : maybe T) (v : T),
      (distinct_on_next neq m v).isSome = true) := by
  constructor
  · intro T m
    obtain ⟨c⟩ := m
    constructor
    · intro he
      cases c with
      | none => exact ⟨rfl, rfl, rfl⟩
      | some r => simp [maybe.empty] at he
    · intro hne
      cases c with
      | none => simp [maybe.empty] at hne
      | some r => exact ⟨rfl, rfl, rfl, rfl, rfl⟩
  · intro T neq m v
    rw [distinct_on_next_eq_step]
    rfl

/-- Witness for C7: the accessors abort (`none`) on a concrete empty `maybe`,
return the stored `5` on a concrete non-empty one, and a concrete `on_next`
with a non-empty slot does not abort. -/
theorem maybe_abort_guarded_spec_witness :
    (maybe.mkEmpty (T := Nat)).value = none ∧
    (maybe.mkValue (5 : Nat)).value = some 5 ∧
    (distinct_on_next (distinct_neq Nat) (maybe.mkValue 5) 5).isSome = true := by
  refine ⟨?_, ?_, ?_⟩
  · exact ((maybe_abort_guarded_spec.1 Nat maybe.mkEmpty).1 rfl).2.2
  · exact ((maybe_abort_guarded_spec.1 Nat (maybe.mkValue 5)).2 rfl).2.2.1
  · exact maybe_abort_guarded_spec.2 Nat (distinct_neq Nat) (maybe.mkValue 5) 5

/-- Claim C8: for any input sequence fed to a fresh activation, the forwarded
sequence is an order-preserving subsequence of the input, no two consecutive
forwarded values are equal, and the first value of the input (when any) is
the first value forwarded. -/
theorem distinct_output_shape_spec {T : Type} [DecidableEq T] (xs : List T) :
    ∃ o, distinct_output (distinct_neq T) xs = some o ∧
      o.Sublist xs ∧ o.Chain' (fun a b => a ≠ b) ∧ o.head? = xs.head? := by
  refine ⟨(distinct_run_pure (distinct_neq T) maybe.mkEmpty xs).2, ?_, ?_, ?_, ?_⟩
  · simp [distinct_output, distinct_run_eq_pure]
  · exact distinct_run_pure_sublist (distinct_neq T) xs maybe.mkEmpty
  · exact (distinct_run_pure_chain xs maybe.mkEmpty).1
  · cases xs with
    | nil => rfl
    | cons v vs => simp [distinct_run_pure_head]

/-- Witness for C8 at the concrete input `[2,2,3,3,2]`. -/
theorem distinct_output_shape_spec_witness :
    ∃ o, distinct_output (distinct_neq Nat) [2, 2, 3, 3, 2] = some o ∧
      o.Sublist [2, 2, 3, 3, 2] ∧ o.Chain' (fun a b => a ≠ b) ∧
      o.head? = some 2 :=
  distinct_output_shape_spec [2, 2, 3, 3, 2]

/-- Claim C9: `from(obj).publish()` returns the wrapped observable handle
unchanged, and `from` on an existing `Binder` returns it unchanged, so `from`
is idempotent: `from(from(x))` equals `from(x)`. -/
theorem from_publish_roundtrip_spec {α : Type} (obj : ObsDesc α) (b : Binder α) :
    (from' obj).publish = obj ∧
    fromBinder (from' obj) = from' obj ∧
    fromBinder b = b ∧
    fromBinder (fromBinder b) = fromBinder b :=
  ⟨rfl, rfl, rfl, rfl⟩

/-- Claim C10: a default-constructed `maybe` is empty with size 0; after
`reset(v)` it is non-empty with size 1 and `value()` returns `v`; after
`reset()` it is empty with size 0; and `reset()` on an already-empty `maybe`
is a no-op. -/
theorem maybe_state_consistency_spec {T : Type} (m : maybe T) (v : T) :
    (maybe.mkEmpty (T := T)).empty = true ∧
    (maybe.mkEmpty (T := T)).size = 0 ∧
    (m.resetValue v).empty = false ∧
    (m.resetValue v).size = 1 ∧
    (m.resetValue v).value = some v ∧
    m.reset.empty = true ∧
    m.reset.size = 0 ∧
    (maybe.mkEmpty (T := T)).reset = maybe.mkEmpty := by
  obtain ⟨c⟩ := m
  cases c with
  | none => exact ⟨rfl, rfl, rfl, rfl, rfl, rfl, rfl, rfl⟩
  | some r => exact ⟨rfl, rfl, rfl, rfl, rfl, rfl, rfl, rfl⟩
